import Mathlib

/-!
Verification development for the swine metapopulation movement-and-transmission
engine (files `movement_12fatpens_swIAVs.py` and `movement_12fatpens_outrans.py`).

The per-step processes are shallowly embedded: pen aggregates (`total_I`,
`total_herd`) become functions `ℕ → ℕ`, per-pen statevars become functions
`ℕ → ℚ`, stochastic draws become explicit inputs, and every Python division is
either mirrored over `ℚ` (where a guard in the source makes the denominator
provably nonzero) or embedded in `Option` via `divCheck` (where the source
divides unguarded and can raise `ZeroDivisionError`).
-/

set_option maxRecDepth 10000

namespace SwineModel

/-- Aggregate population counts of the pens (herds 0..17): `totalI i` is the
number of infectious animals of pen `i`, `totalHerd i` its total population.
These are the `herds[i].total_I` / `herds[i].total_herd` aggregates read by the
transmission updates. -/
structure PopState where
  totalI : ℕ → ℕ
  totalHerd : ℕ → ℕ

/-- Model parameters consumed by the movement and adjacency transmission
updates (`between_herd_trans`, `neighboring_herd_trans`,
`biosec_remove_risky_move`; the flag is a 0/1-encoded numeric parameter
compared to 1 in the source). -/
structure Params where
  betweenHerdTrans : ℚ
  neighboringHerdTrans : ℚ
  biosecRemoveRiskyMove : ℤ

/-- Division guarded against a zero denominator, mirroring the fact that a
Python division raises `ZeroDivisionError` when the denominator is 0. -/
def divCheck (a b : ℚ) : Option ℚ := if b = 0 then none else some (a / b)

/-- Biosecurity override of `farmer_movement` (swIAVs lines 231-236, outrans
lines 237-242): with the flag enabled, the normalized duration of a risky
movement edge is forced to 0.  The risky patterns are fattening `[4,15]` to
`[1,3]`, gestation 1 to farrowing 2, and nursery 3 to `[1,2]`. -/
def riskyDur (p : Params) (source dest : ℕ) (dur : ℚ) : ℚ :=
  if 4 ≤ source ∧ source ≤ 15 ∧ 1 ≤ dest ∧ dest ≤ 3 ∧ p.biosecRemoveRiskyMove = 1 then 0
  else if ((source = 1 ∧ dest = 2) ∨ (source = 3 ∧ 1 ≤ dest ∧ dest ≤ 2))
      ∧ p.biosecRemoveRiskyMove = 1 then 0
  else dur

/-- Risky-movement patterns named by the spec for the biosecurity override. -/
def riskyMove (source dest : ℕ) : Prop :=
  (4 ≤ source ∧ source ≤ 15 ∧ 1 ≤ dest ∧ dest ≤ 3)
    ∨ (source = 1 ∧ dest = 2)
    ∨ (source = 3 ∧ 1 ≤ dest ∧ dest ≤ 2)

instance riskyMoveDecidable (source dest : ℕ) : Decidable (riskyMove source dest) := by
  unfold riskyMove
  infer_instance

/-- Pooled infectious count of the fattening pens, mirroring the
`for i in range(4, 16): total_I += herds[i].total_I` loop of the
`source == 4` branch of `farmer_movement` (swIAVs lines 254-258). -/
def pooledFatteningI (st : PopState) : ℕ :=
  ((List.range' 4 12).map st.totalI).sum

/-- Pooled population of the fattening pens (same loop as `pooledFatteningI`). -/
def pooledFatteningHerd (st : PopState) : ℕ :=
  ((List.range' 4 12).map st.totalHerd).sum

/-- Zero-population fallback of the pooled fattening denominator:
`total_herd = 1 if total_herd == 0 else total_herd` (swIAVs line 259). -/
def safePooledHerd (st : PopState) : ℕ :=
  if pooledFatteningHerd st = 0 then 1 else pooledFatteningHerd st

/-- Force-of-infection contribution of a single movement edge, mirroring
`farmer_movement` (swIAVs lines 222-262): the computation runs only when the
source pen is populated and the destination is not a dressing room (16, 17);
the raw duration is normalized by 10080 and possibly zeroed by the biosecurity
override; a source other than pen 4 uses its own infectious fraction, while
source 4 uses the pooled fattening fraction with denominator fallback 1. -/
def edgeContribution (p : Params) (st : PopState) (source dest : ℕ) (dur : ℚ) : ℚ :=
  if 0 < st.totalHerd source ∧ dest ≠ 16 ∧ dest ≠ 17 then
    if source ≠ 4 then
      riskyDur p source dest (dur / 10080) * p.betweenHerdTrans
        * (st.totalI source : ℚ) / (st.totalHerd source : ℚ)
    else
      riskyDur p source dest (dur / 10080) * p.betweenHerdTrans
        * (pooledFatteningI st : ℚ) / (safePooledHerd st : ℚ)
  else 0

/-- Checked variant of `edgeContribution` in which each division of the source
is performed through `divCheck`, so that a zero denominator would surface as
`none` instead of being silently totalized. -/
def edgeContributionChecked (p : Params) (st : PopState) (source dest : ℕ) (dur : ℚ) :
    Option ℚ :=
  if 0 < st.totalHerd source ∧ dest ≠ 16 ∧ dest ≠ 17 then
    if source ≠ 4 then
      divCheck
        (riskyDur p source dest (dur / 10080) * p.betweenHerdTrans
          * (st.totalI source : ℚ))
        ((st.totalHerd source : ℚ))
    else
      divCheck
        (riskyDur p source dest (dur / 10080) * p.betweenHerdTrans
          * (pooledFatteningI st : ℚ))
        ((safePooledHerd st : ℚ))
  else some 0

/-- Processing of one movement edge onto the `trans_btwn_pens_frm_movement`
statevars (swIAVs lines 212-268): a self-loop is skipped; otherwise the
contribution is accumulated onto the destination, and when the destination is
pen 4 the body `herds[dest].statevars.trans_btwn_pens_frm_movement +=
trans_I_from_source` is executed once more for each `i in range(5, 16)` — note
that the source indexes `herds[dest]`, not `herds[i]`, inside that loop. -/
def processEdge (p : Params) (st : PopState) (trans : ℕ → ℚ) (source dest : ℕ)
    (dur : ℚ) : ℕ → ℚ :=
  if source = dest then trans
  else if dest = 4 then
    List.foldl
      (fun t _ => Function.update t dest (t dest + edgeContribution p st source dest dur))
      (Function.update trans dest (trans dest + edgeContribution p st source dest dur))
      (List.range' 5 11)
  else Function.update trans dest (trans dest + edgeContribution p st source dest dur)

/-- All-zero transmission statevars, the state right after the per-step reset
`herds[i].statevars.trans_btwn_pens_frm_movement = 0`. -/
def trZero : ℕ → ℚ := fun _ => 0

/-- Concrete parameters for the pen-4 destination evaluation: transmission
coefficient 1, biosecurity disabled. -/
def pC1 : Params := ⟨1, 0, 0⟩

/-- Concrete population for the pen-4 destination evaluation: pen 3 holds 10
animals, all infectious; every other pen is empty. -/
def stC1 : PopState :=
  ⟨fun i => if i = 3 then 10 else 0, fun i => if i = 3 then 10 else 0⟩

/-- Pooled count over the other fattening pens, mirroring the inner loop
`for j in range(4, 16): if j != i: total += ...` of `sample_I_from_fatteners`
(swIAVs lines 299-302). -/
def pooledOthers (f : ℕ → ℕ) (i : ℕ) : ℕ :=
  (((List.range' 4 12).filter (fun j => decide (j ≠ i))).map f).sum

/-- One iteration of the full-pairwise adjacency update of
`sample_I_from_fatteners` (swIAVs lines 295-305): `portion_I` stays 0 when the
pooled denominator is 0, and the pen's `trans_btwn_pens_frm_movement` is
overwritten with `neighboring_herd_trans * portion_I`. -/
def fullPairwiseStep (st : PopState) (nht : ℚ) (t : ℕ → ℚ) (i : ℕ) : ℕ → ℚ :=
  Function.update t i
    (nht * (if pooledOthers st.totalHerd i ≠ 0
      then (pooledOthers st.totalI i : ℚ) / (pooledOthers st.totalHerd i : ℚ)
      else 0))

/-- Full-pairwise adjacency transmission over the fattening pens 4..15
(swIAVs `sample_I_from_fatteners`). -/
def fullPairwiseAdj (st : PopState) (nht : ℚ) (trans : ℕ → ℚ) : ℕ → ℚ :=
  List.foldl (fullPairwiseStep st nht) trans (List.range' 4 12)

/-- Checked variant of `fullPairwiseStep`: its (guarded) division runs through
`divCheck`. -/
def fullPairwiseStepChecked (st : PopState) (nht : ℚ) (t : ℕ → ℚ) (i : ℕ) :
    Option (ℕ → ℚ) :=
  (if pooledOthers st.totalHerd i ≠ 0
    then divCheck ((pooledOthers st.totalI i : ℚ)) ((pooledOthers st.totalHerd i : ℚ))
    else some 0).map
    (fun portion_I => Function.update t i (nht * portion_I))

/-- Checked variant of `fullPairwiseAdj`. -/
def fullPairwiseAdjChecked (st : PopState) (nht : ℚ) (trans : ℕ → ℚ) :
    Option (ℕ → ℚ) :=
  List.foldlM (fullPairwiseStepChecked st nht) trans (List.range' 4 12)

/-- Per-pen term of the line-adjacency variant of `sample_I_from_fatteners`
(outrans lines 283-298): pens 4 and 5 read their `+2` neighbor, pens 14 and 15
their `-2` neighbor, and every middle pen reads the pooled ratio of its two
`±2` same-line neighbors.  The term is the quantity added to the running
accumulator `trans_between_pens` at iteration `i`. -/
def lineTerm (st : PopState) (nht : ℚ) (i : ℕ) : ℚ :=
  if i = 4 ∨ i = 5 then nht * (st.totalI (i + 2) : ℚ) / (st.totalHerd (i + 2) : ℚ)
  else if i = 14 ∨ i = 15 then nht * (st.totalI (i - 2) : ℚ) / (st.totalHerd (i - 2) : ℚ)
  else nht * ((st.totalI (i - 2) : ℚ) + (st.totalI (i + 2) : ℚ))
    / ((st.totalHerd (i - 2) : ℚ) + (st.totalHerd (i + 2) : ℚ))

/-- Denominator read by `lineTerm` at pen `i`, as a natural number. -/
def lineDenom (st : PopState) (i : ℕ) : ℕ :=
  if i = 4 ∨ i = 5 then st.totalHerd (i + 2)
  else if i = 14 ∨ i = 15 then st.totalHerd (i - 2)
  else st.totalHerd (i - 2) + st.totalHerd (i + 2)

/-- Checked variant of `lineTerm`: the source divides with no zero guard, so
the division runs through `divCheck`. -/
def lineTermChecked (st : PopState) (nht : ℚ) (i : ℕ) : Option ℚ :=
  if i = 4 ∨ i = 5 then
    divCheck (nht * (st.totalI (i + 2) : ℚ)) ((st.totalHerd (i + 2) : ℚ))
  else if i = 14 ∨ i = 15 then
    divCheck (nht * (st.totalI (i - 2) : ℚ)) ((st.totalHerd (i - 2) : ℚ))
  else
    divCheck (nht * ((st.totalI (i - 2) : ℚ) + (st.totalI (i + 2) : ℚ)))
      ((st.totalHerd (i - 2) : ℚ) + (st.totalHerd (i + 2) : ℚ))

/-- One iteration of the line-adjacency loop (outrans lines 283-298): the
running accumulator `trans_between_pens` (never reset inside the loop) grows by
the pen's term, and the new accumulator value is added onto the pen's
`trans_btwn_pens_frm_movement`. -/
def lineStep (st : PopState) (nht : ℚ) (acc : ℚ × (ℕ → ℚ)) (i : ℕ) : ℚ × (ℕ → ℚ) :=
  (acc.1 + lineTerm st nht i,
   Function.update acc.2 i (acc.2 i + (acc.1 + lineTerm st nht i)))

/-- Line-adjacency transmission over the fattening pens 4..15, assuming every
division succeeds (total model over `ℚ`). -/
def lineAdj (st : PopState) (nht : ℚ) (trans : ℕ → ℚ) : ℕ → ℚ :=
  (List.foldl (lineStep st nht) ((0 : ℚ), trans) (List.range' 4 12)).2

/-- Checked variant of `lineStep`. -/
def lineStepChecked (st : PopState) (nht : ℚ) (acc : ℚ × (ℕ → ℚ)) (i : ℕ) :
    Option (ℚ × (ℕ → ℚ)) :=
  (lineTermChecked st nht i).map
    (fun t => (acc.1 + t, Function.update acc.2 i (acc.2 i + (acc.1 + t))))

/-- Checked line-adjacency transmission: `none` exactly when some unguarded
division of the source hits a zero denominator. -/
def lineAdjChecked (st : PopState) (nht : ℚ) (trans : ℕ → ℚ) : Option (ℕ → ℚ) :=
  (List.foldlM (lineStepChecked st nht) ((0 : ℚ), trans) (List.range' 4 12)).map Prod.snd

/-- Line-adjacency update as the claim states it (stated from the spec
wording, for comparison with `lineAdj`): each fattening pen receives pressure
only from its own same-line `±2` neighbors, one-sided at pens 4, 5, 14, 15,
each individual contribution being
`neighboring_herd_trans * neighbor total_I / neighbor total_herd`, and the
total is added onto the pen's current `trans_btwn_pens_frm_movement`. -/
def lineAdjacencyClaim (st : PopState) (nht : ℚ) (trans : ℕ → ℚ) : ℕ → ℚ :=
  fun i =>
    if i = 4 ∨ i = 5 then
      trans i + nht * (st.totalI (i + 2) : ℚ) / (st.totalHerd (i + 2) : ℚ)
    else if i = 14 ∨ i = 15 then
      trans i + nht * (st.totalI (i - 2) : ℚ) / (st.totalHerd (i - 2) : ℚ)
    else if 4 ≤ i ∧ i ≤ 15 then
      trans i + (nht * (st.totalI (i - 2) : ℚ) / (st.totalHerd (i - 2) : ℚ)
        + nht * (st.totalI (i + 2) : ℚ) / (st.totalHerd (i + 2) : ℚ))
    else trans i

/-- Concrete population refuting the line-adjacency claim: every fattening pen
holds exactly one animal and the single infectious animal lives in pen 6. -/
def stLine : PopState :=
  ⟨fun i => if i = 6 then 1 else 0,
   fun i => if 4 ≤ i ∧ i ≤ 15 then 1 else 0⟩

/-- Completely empty farm: every pen has population 0. -/
def stEmpty : PopState := ⟨fun _ => 0, fun _ => 0⟩

/-- Newborn-production loop of `farmer_movement` (swIAVs lines 122-146) over
the state `(farrowing-pen newborn count, newborns produced so far)`: each
farrowing sow checks the pen's current newborn count against `K_herd` and,
when it is below the cap, contributes its litter of `pba` newborns to the
local `newborn` list.  Atom creation does not place animals in the pen — the
whole list is added in one batch only after the loop
(`herds[2].add_atoms(newborn)`, line 146, guarded by a no-op emptiness check)
per the spec's collaborator contract — so the count component is left
untouched by the loop body. -/
def farrowLoop (K : ℕ) (litters : List ℕ) (jnb0 : ℕ) : ℕ × ℕ :=
  List.foldl (fun acc pba => if acc.1 < K then (acc.1, acc.2 + pba) else acc)
    (jnb0, 0) litters

/-- Farrowing-pen newborn count after the loop and the single batch add. -/
def farrowStep (K jnb0 : ℕ) (litters : List ℕ) : ℕ :=
  jnb0 + (farrowLoop K litters jnb0).2

/-- Number of parts of the grower redistribution (swIAVs lines 187-194):
`n = floor(len(growers)/12)` clamped to 1 from below and 12 from above, and
1 for an empty pool. -/
def numParts (P : ℕ) : ℕ :=
  if 0 < P then
    if P / 12 = 0 then 1 else if 12 < P / 12 then 12 else P / 12
  else 1

/-- Part sizes of `np.array_split` on a sequence of length `P` cut into `n`
parts: the first `P mod n` parts have size `P / n + 1`, the remaining ones
have size `P / n`. -/
def splitSizes (P n : ℕ) : List ℕ :=
  (List.range n).map (fun i => P / n + if i < P % n then 1 else 0)

/-- Cutting a list into consecutive chunks of the given sizes. -/
def splitBySizes : List ℕ → List ℕ → List (List ℕ)
  | [], _ => []
  | s :: ss, l => List.take s l :: splitBySizes ss (List.drop s l)

/-- Model of `np.array_split(l, n)` (swIAVs line 197): `n` contiguous
near-equal parts in source order. -/
def array_split (l : List ℕ) (n : ℕ) : List (List ℕ) :=
  splitBySizes (splitSizes l.length n) l

/-- The pen count stated by the claim: `clamp(floor(P/12), 1, 12)`. -/
def clampPens (P : ℕ) : ℕ := max 1 (min (P / 12) 12)

/-- Transfer loop `for i, pen in enumerate(pens): herds[i + 4].add_atoms(pen)`
(swIAVs lines 200-201), with the enumeration counter made explicit. -/
def assignPensFrom (h : ℕ → List ℕ) (i0 : ℕ) : List (List ℕ) → (ℕ → List ℕ)
  | [] => h
  | pen :: rest =>
      assignPensFrom (Function.update h (i0 + 4) (h (i0 + 4) ++ pen)) (i0 + 1) rest

/-- One raw record of the trade/farmer-movement CSV: parsed date (a point on
an absolute integer time axis, in the same unit as the step duration), source
pen, destination pen and duration in minutes. -/
structure MoveRow where
  date : ℤ
  source : ℕ
  dest : ℕ
  dur : ℚ

/-- Built schedule: step index and source pen to the ordered list of
(destination, duration) entries; an absent key is the empty list. -/
abbrev Moves := ℤ → ℕ → List (ℕ × ℚ)

/-- Processing of one CSV row by `restructure_moves` (swIAVs lines 61-74): a
row dated strictly before the origin is skipped; otherwise its entry
`[dest, dur]` is appended to the list of the key
`((date - origin) // step_duration, source)` — `//` on time deltas is floor
division, hence `Int.fdiv`. -/
def addMove (origin stepDur : ℤ) (m : Moves) (r : MoveRow) : Moves :=
  if r.date < origin then m
  else fun st src =>
    if st = (r.date - origin).fdiv stepDur ∧ src = r.source
    then m st src ++ [(r.dest, r.dur)]
    else m st src

/-- The Movement Schedule Builder `restructure_moves`: fold of `addMove` over
the CSV rows in file order, starting from the empty schedule. -/
def restructure_moves (origin stepDur : ℤ) (rows : List MoveRow) : Moves :=
  List.foldl (addMove origin stepDur) (fun _ _ => []) rows

/-- Row-retention predicate of the schedule builder for a given key: the
record's date is not before origin, its floor-division step index is `st`,
and its source pen is `src`. -/
def keepRow (origin stepDur st : ℤ) (src : ℕ) (r : MoveRow) : Bool :=
  decide (origin ≤ r.date) && decide (st = (r.date - origin).fdiv stepDur)
    && decide (src = r.source)

/-- Individual health states relevant to the external pathway. -/
inductive Health where
  | S
  | E
  | I
  | M
deriving DecidableEq

/-- Random draws consumed for one susceptible individual by
`external_pathway` (swIAVs lines 345-354): the three uniform draws bounded by
`proba_encounter`, `proba_trans`, `proba_ext_I`, the biosecurity-success draw
`P2`, and the final comparison draw `u = np.random.random()`. -/
structure ExtDraw where
  pEnc : ℚ
  pTrans : ℚ
  pExtI : ℚ
  P2 : ℚ
  u : ℚ

/-- Contact risk `R_contact = P1 * (1 - P2)` with
`P1 = p_enc * p_trans * p_ext_I` (swIAVs lines 349-352). -/
def R_contact (d : ExtDraw) : ℚ :=
  d.pEnc * d.pTrans * d.pExtI * (1 - d.P2)

/-- External pathway applied to one individual: only a susceptible animal
whose final uniform draw falls strictly below its contact risk is moved to the
`infected_outside_farm` prototype state (modelled as an opaque-to-us target
state passed in as `infectedState`). -/
def externalPathwayPig (infectedState : Health) (h : Health) (d : ExtDraw) : Health :=
  if h = Health.S ∧ d.u < R_contact d then infectedState else h

/-- External pathway over all individuals (the per-pen loops flattened into
one list, each individual paired with its stochastic draws; non-susceptible
individuals are untouched by the source, which only selects `'S'` atoms). -/
def externalPathway (infectedState : Health) (pigs : List (Health × ExtDraw)) :
    List Health :=
  pigs.map (fun pd => externalPathwayPig infectedState pd.1 pd.2)

/-- Concrete draw for the C8 witness: perfect biosecurity (`P2 = 1`) and a
final uniform draw of 1/2. -/
def dC8 : ExtDraw := ⟨1, 1, 1, 1, 1 / 2⟩

/-- Configuration check of `init_preprocessor` (swIAVs lines 26-28): the
input-files configuration is a set of supplied keys (or absent altogether),
and a `SemanticException` is raised exactly when no trade-file path is
supplied. -/
def init_preprocessor (input_files : Option (List String)) : Except String Unit :=
  if input_files = none ∨ "trade_file" ∉ input_files.getD [] then
    Except.error "A valid trade_file must be specified in the input_files section"
  else Except.ok ()

/-- Setup pipeline: `init_preprocessor` runs first, before any schedule work;
only on success does `run_preprocessor` build (and cache) the schedule through
`restructure_moves`. -/
def setupPreprocessor (input_files : Option (List String)) (origin stepDur : ℤ)
    (rows : List MoveRow) : Except String Moves :=
  match init_preprocessor input_files with
  | Except.error e => Except.error e
  | Except.ok _ => Except.ok (restructure_moves origin stepDur rows)

/-- Boolean error-outcome test of an `Except` value. -/
def exceptHasError {ε α : Type} : Except ε α → Bool
  | Except.error _ => true
  | Except.ok _ => false

/-- Infectious-pen counter of `sample_I_from_fatteners` (swIAVs lines
277-290): the statevar `nb_of_sampled_I_Jf` is first reset to 0 — discarding
its previous value `prev` — and then increased by
`sum(1 for i in range(12) if herds[i + 4].total_I > 0)`. -/
def sample_I_counter (st : PopState) (prev : ℕ) : ℕ :=
  0 + ((List.range 12).filter (fun i => decide (0 < st.totalI (i + 4)))).length

end SwineModel

namespace SwineModel

/-- C1: the source code's own comment says a movement into pen 4 becomes a
movement into all fattening pens, and the claim says pens 5..15 each receive
the same contribution as pen 4.  Evaluating the code on a single edge
3 → 4 of duration 10080 with contribution 1 shows that pen 4 instead receives
the contribution 12 times while pens 5 and 15 receive nothing, because the
`for i in range(5, 16)` loop updates `herds[dest]` and never uses `i`. -/
theorem C1_pool_destination_code_divergence :
    processEdge pC1 stC1 trZero 3 4 10080 4 = 12 ∧
    processEdge pC1 stC1 trZero 3 4 10080 5 = 0 ∧
    processEdge pC1 stC1 trZero 3 4 10080 15 = 0 := by
  have hc : edgeContribution pC1 stC1 3 4 10080 = 1 := by
    unfold edgeContribution riskyDur
    norm_num [stC1, pC1]
  have hr : List.range' 5 11 = [5, 6, 7, 8, 9, 10, 11, 12, 13, 14, 15] := by decide
  unfold processEdge
  rw [hr, hc]
  norm_num [List.foldl, Function.update_apply, trZero]

/-- C5: with the biosecurity flag enabled, an edge matching any risky-move
pattern contributes exactly 0 to every pen's `trans_btwn_pens_frm_movement`,
whatever its duration and the source pen's infection level. -/
theorem C5_biosec_zero_contribution (p : Params) (st : PopState) (trans : ℕ → ℚ)
    (source dest : ℕ) (dur : ℚ) (pen : ℕ)
    (hb : p.biosecRemoveRiskyMove = 1) (hr : riskyMove source dest) :
    processEdge p st trans source dest dur pen = trans pen := by
  have hd3 : 1 ≤ dest ∧ dest ≤ 3 := by
    rcases hr with h | h | h <;> omega
  have hsd : source ≠ dest := by
    rcases hr with h | h | h <;> omega
  have hrd : riskyDur p source dest (dur / 10080) = 0 := by
    unfold riskyDur
    rcases hr with h | h | h
    · rw [if_pos ⟨h.1, h.2.1, h.2.2.1, h.2.2.2, hb⟩]
    · rw [if_neg (by omega), if_pos ⟨Or.inl h, hb⟩]
    · rw [if_neg (by omega), if_pos ⟨Or.inr h, hb⟩]
  have hc : edgeContribution p st source dest dur = 0 := by
    unfold edgeContribution
    rw [hrd]
    split_ifs <;> simp
  unfold processEdge
  rw [if_neg hsd, if_neg (by omega), hc, add_zero]
  rw [Function.update_apply]
  split_ifs with h
  · rw [h]
  · rfl

/-- Concrete parameters for the C5 witness: biosecurity enabled. -/
def pC5 : Params := ⟨1, 0, 1⟩

/-- Concrete population for the C5 witness: every pen holds 5 animals, 2 of
them infectious. -/
def stC5 : PopState := ⟨fun _ => 2, fun _ => 5⟩

/-- Witness for C5 at the risky edge 5 → 2 of duration 7. -/
theorem C5_biosec_zero_contribution_witness :
    processEdge pC5 stC5 trZero 5 2 7 2 = trZero 2 :=
  C5_biosec_zero_contribution pC5 stC5 trZero 5 2 7 2 rfl (by decide)

/-- Helper: a fold in the `Option` monad agrees with the pure fold when every
step succeeds on the elements of the list. -/
theorem foldlM_eq_foldl {α β : Type} (g : β → α → Option β) (g' : β → α → β) :
    ∀ (l : List α), (∀ a ∈ l, ∀ b, g b a = some (g' b a)) →
      ∀ (b : β), List.foldlM g b l = some (List.foldl g' b l) := by
  intro l
  induction l with
  | nil => intro _ b; rfl
  | cons a t ih =>
      intro h b
      rw [List.foldlM_cons, h a (List.mem_cons_self a t) b]
      show List.foldlM g (g' b a) t = _
      rw [ih (fun x hx b' => h x (List.mem_cons_of_mem a hx) b') (g' b a)]
      rfl

/-- Helper: the checked line-adjacency term succeeds, and agrees with its
total model, whenever the denominator it reads is nonzero. -/
theorem lineTermChecked_eq (st : PopState) (nht : ℚ) (i : ℕ)
    (h : lineDenom st i ≠ 0) :
    lineTermChecked st nht i = some (lineTerm st nht i) := by
  unfold lineDenom at h
  unfold lineTermChecked lineTerm divCheck
  by_cases h1 : i = 4 ∨ i = 5
  · rw [if_pos h1] at h
    have hc : ¬((st.totalHerd (i + 2) : ℚ) = 0) := by exact_mod_cast h
    rw [if_pos h1, if_pos h1, if_neg hc]
  · rw [if_neg h1] at h
    rw [if_neg h1, if_neg h1]
    by_cases h2 : i = 14 ∨ i = 15
    · rw [if_pos h2] at h
      have hc : ¬((st.totalHerd (i - 2) : ℚ) = 0) := by exact_mod_cast h
      rw [if_pos h2, if_pos h2, if_neg hc]
    · rw [if_neg h2] at h
      have hc : ¬((st.totalHerd (i - 2) : ℚ) + (st.totalHerd (i + 2) : ℚ) = 0) := by
        exact_mod_cast h
      rw [if_neg h2, if_neg h2, if_neg hc]

/-- Helper: closed form of the line-adjacency fold over pens `4 .. 4+m-1`.
The first component is the running accumulator (initial value plus the sum of
all terms seen so far); pen `j` in the processed range has been incremented by
the accumulator value reached at its own iteration, that is, by the cumulative
sum of the terms of pens `4 .. j`. -/
theorem lineAdjFold (st : PopState) (nht : ℚ) :
    ∀ (m : ℕ) (tbp0 : ℚ) (tr : ℕ → ℚ),
      (List.foldl (lineStep st nht) (tbp0, tr) (List.range' 4 m)).1
          = tbp0 + ((List.range' 4 m).map (lineTerm st nht)).sum
        ∧ ∀ j : ℕ,
          (List.foldl (lineStep st nht) (tbp0, tr) (List.range' 4 m)).2 j
            = if 4 ≤ j ∧ j < 4 + m
              then tr j + (tbp0 + ((List.range' 4 (j - 3)).map (lineTerm st nht)).sum)
              else tr j := by
  intro m
  induction m with
  | zero =>
      intro tbp0 tr
      constructor
      · simp [List.range']
      · intro j
        rw [if_neg (by omega)]
        rfl
  | succ n ih =>
      intro tbp0 tr
      rw [List.range'_1_concat, List.foldl_append]
      obtain ⟨ih1, ih2⟩ := ih tbp0 tr
      set A := List.foldl (lineStep st nht) (tbp0, tr) (List.range' 4 n) with hA
      simp only [List.foldl_cons, List.foldl_nil]
      have e1 : (lineStep st nht A (4 + n)).1 = A.1 + lineTerm st nht (4 + n) := rfl
      have e2 : (lineStep st nht A (4 + n)).2
          = Function.update A.2 (4 + n) (A.2 (4 + n) + (A.1 + lineTerm st nht (4 + n))) := rfl
      constructor
      · rw [e1, List.map_append, List.sum_append]
        simp only [List.map_cons, List.map_nil, List.sum_cons, List.sum_nil]
        rw [ih1]
        ring
      · intro j
        rw [e2, Function.update_apply]
        by_cases hj : j = 4 + n
        · subst hj
          rw [if_pos rfl, if_pos (by omega)]
          have hA2 := ih2 (4 + n)
          rw [if_neg (by omega)] at hA2
          rw [hA2, ih1]
          have h34 : 4 + n - 3 = n + 1 := by omega
          rw [h34, List.range'_1_concat, List.map_append, List.sum_append]
          simp only [List.map_cons, List.map_nil, List.sum_cons, List.sum_nil]
          ring
        · rw [if_neg hj]
          have hA2 := ih2 j
          by_cases hcond : 4 ≤ j ∧ j < 4 + n
          · rw [if_pos hcond] at hA2
            rw [hA2, if_pos (by omega)]
          · rw [if_neg hcond] at hA2
            rw [hA2, if_neg (by omega)]

/-- C2 counterexample: on the fully empty farm the line-adjacency update of
the source performs `herds[6].total_I / herds[6].total_herd` with
`total_herd = 0`, so the checked computation fails rather than substituting a
safe denominator or skipping the contribution. -/
theorem C2_line_denominator_counterexample :
    (lineAdjChecked stEmpty 1 trZero).isSome = false := by
  have h4 : lineTermChecked stEmpty 1 4 = none := by
    simp [lineTermChecked, divCheck, stEmpty]
  have hstep : lineStepChecked stEmpty 1 ((0 : ℚ), trZero) 4 = none := by
    unfold lineStepChecked
    rw [h4]
    rfl
  unfold lineAdjChecked
  have hl : List.range' 4 12 = 4 :: List.range' 5 11 := by decide
  rw [hl, List.foldlM_cons, hstep]
  rfl

/-- C2 amended: the movement-transmission contribution and the full-pairwise
adjacency update of the swIAVs variant are total — each division they perform
is locally guarded (source-pen guard `total_herd > 0`, pooled fallback
denominator 1, `portion_I = 0` skip), so the checked computations always
succeed and agree with the total models.  (The line-adjacency variant is the
exception, see the counterexample.) -/
theorem C2_safe_denominators_amended :
    (∀ (p : Params) (st : PopState) (source dest : ℕ) (dur : ℚ),
      edgeContributionChecked p st source dest dur
        = some (edgeContribution p st source dest dur)) ∧
    (∀ (st : PopState) (nht : ℚ) (trans : ℕ → ℚ),
      fullPairwiseAdjChecked st nht trans = some (fullPairwiseAdj st nht trans)) := by
  constructor
  · intro p st source dest dur
    unfold edgeContributionChecked edgeContribution divCheck
    by_cases h1 : 0 < st.totalHerd source ∧ dest ≠ 16 ∧ dest ≠ 17
    · have hne : ¬((st.totalHerd source : ℚ) = 0) := by
        have h0 : st.totalHerd source ≠ 0 := by omega
        exact_mod_cast h0
      rw [if_pos h1, if_pos h1]
      by_cases h2 : source ≠ 4
      · rw [if_pos h2, if_pos h2, if_neg hne]
      · have hsafe : ¬((safePooledHerd st : ℚ) = 0) := by
          unfold safePooledHerd
          by_cases h3 : pooledFatteningHerd st = 0
          · rw [if_pos h3]
            norm_num
          · rw [if_neg h3]
            exact_mod_cast h3
        rw [if_neg h2, if_neg h2, if_neg hsafe]
    · rw [if_neg h1, if_neg h1]
  · intro st nht trans
    unfold fullPairwiseAdjChecked fullPairwiseAdj
    have hstep : ∀ i ∈ List.range' 4 12, ∀ b : ℕ → ℚ,
        fullPairwiseStepChecked st nht b i = some (fullPairwiseStep st nht b i) := by
      intro i _ b
      unfold fullPairwiseStepChecked fullPairwiseStep divCheck
      by_cases h : pooledOthers st.totalHerd i ≠ 0
      · rw [if_pos h, if_pos h, if_neg (Nat.cast_ne_zero.mpr h)]
        rfl
      · rw [if_neg h, if_neg h]
        rfl
    rw [foldlM_eq_foldl _ _ _ hstep _]

/-- C3 amended: in the line-adjacency variant the accumulator
`trans_between_pens` is never reset inside the loop, so pen `j` receives (added
onto its `trans_btwn_pens_frm_movement`) the cumulative sum of the per-pen
terms of all pens `4 .. j`, where the term of boundary pens 4, 5, 14, 15 is
the one-sided `neighboring_herd_trans * neighbor total_I / neighbor total_herd`
and the term of a middle pen is the pooled ratio
`neighboring_herd_trans * (I[i-2]+I[i+2]) / (herd[i-2]+herd[i+2])`; all the
denominators read must be nonzero for the computation to succeed. -/
theorem C3_line_adjacency_amended (st : PopState) (nht : ℚ) (trans : ℕ → ℚ)
    (hd : ∀ i ∈ List.range' 4 12, lineDenom st i ≠ 0) :
    lineAdjChecked st nht trans = some (lineAdj st nht trans) ∧
    (∀ j, 4 ≤ j → j ≤ 15 →
      lineAdj st nht trans j
        = trans j + ((List.range' 4 (j - 3)).map (lineTerm st nht)).sum) ∧
    (∀ j, j < 4 ∨ 15 < j → lineAdj st nht trans j = trans j) := by
  refine ⟨?_, ?_, ?_⟩
  · have hstep : ∀ i ∈ List.range' 4 12, ∀ b : ℚ × (ℕ → ℚ),
        lineStepChecked st nht b i = some (lineStep st nht b i) := by
      intro i hi b
      unfold lineStepChecked
      rw [lineTermChecked_eq st nht i (hd i hi)]
      rfl
    unfold lineAdjChecked lineAdj
    rw [foldlM_eq_foldl _ _ _ hstep _]
    rfl
  · intro j h4 h15
    have h := (lineAdjFold st nht 12 0 trans).2 j
    unfold lineAdj
    rw [h, if_pos (by omega), zero_add]
  · intro j hj
    have h := (lineAdjFold st nht 12 0 trans).2 j
    unfold lineAdj
    rw [h, if_neg (by omega)]

/-- Witness for the amended C3 on the concrete state `stLine`, whose
denominators are all nonzero. -/
theorem C3_line_adjacency_amended_witness :
    lineAdjChecked stLine 1 trZero = some (lineAdj stLine 1 trZero) := by
  have hd : ∀ i ∈ List.range' 4 12, lineDenom stLine i ≠ 0 := by decide
  exact (C3_line_adjacency_amended stLine 1 trZero hd).1

/-- C3 counterexample: on `stLine` (one animal per fattening pen, the only
infectious one in pen 6) the code gives pen 5 the value 1 — the carried-over
accumulator term of pen 4's neighbor — while the claim (pressure only from
pen 5's own same-line neighbor, pen 7) predicts 0. -/
theorem C3_line_adjacency_counterexample :
    (lineAdjChecked stLine 1 trZero).map (fun f => f 5) = some 1 ∧
    lineAdjacencyClaim stLine 1 trZero 5 = 0 := by
  constructor
  · have hstep : ∀ i ∈ List.range' 4 12, ∀ b : ℚ × (ℕ → ℚ),
        lineStepChecked stLine 1 b i = some (lineStep stLine 1 b i) := by
      intro i hi b
      unfold lineStepChecked
      rw [lineTermChecked_eq stLine 1 i (by revert i; decide)]
      rfl
    have hbridge : lineAdjChecked stLine 1 trZero = some (lineAdj stLine 1 trZero) := by
      unfold lineAdjChecked lineAdj
      rw [foldlM_eq_foldl _ _ _ hstep _]
      rfl
    rw [hbridge]
    have h5 := (lineAdjFold stLine 1 12 0 trZero).2 5
    rw [if_pos (by omega)] at h5
    show some (lineAdj stLine 1 trZero 5) = some 1
    unfold lineAdj
    rw [h5]
    have hl : List.range' 4 (5 - 3) = [4, 5] := by decide
    rw [hl]
    norm_num [lineTerm, stLine, trZero]
  · norm_num [lineAdjacencyClaim, stLine, trZero]

/-- C4: the cap check of the newborn-production loop reads the farrowing
pen's newborn count as of loop start (the count component of the loop state
is constant), so when the loop-start count is below `K_herd` every farrowing
sow produces its full litter; the batch add after the loop can then overshoot
the cap, as the concrete instance `K_herd = 5`, loop-start count 4, one litter
of 10 (final count 14) shows. -/
theorem C4_newborn_batch_cap (K jnb0 : ℕ) (litters : List ℕ) (h : jnb0 < K) :
    (farrowLoop K litters jnb0).1 = jnb0 ∧
    (farrowLoop K litters jnb0).2 = litters.sum ∧
    farrowStep K jnb0 litters = jnb0 + litters.sum ∧
    farrowStep 5 4 [10] = 14 ∧ 5 < farrowStep 5 4 [10] := by
  have key : ∀ (l : List ℕ) (c : ℕ),
      List.foldl (fun acc pba => if acc.1 < K then (acc.1, acc.2 + pba) else acc)
          (jnb0, c) l
        = (jnb0, c + l.sum) := by
    intro l
    induction l with
    | nil => intro c; simp
    | cons a t ih =>
        intro c
        rw [List.foldl_cons, if_pos h, ih]
        rw [List.sum_cons]
        congr 1
        omega
  unfold farrowStep farrowLoop
  rw [key litters 0]
  refine ⟨rfl, by simp, by simp, by decide, by decide⟩

/-- Witness for C4 with `K_herd = 5`, loop-start newborn count 2 and litters
3 and 4: the loop leaves the count at 2 and produces all 7 newborns. -/
theorem C4_newborn_batch_cap_witness :
    (farrowLoop 5 [3, 4] 2).1 = 2 ∧ (farrowLoop 5 [3, 4] 2).2 = 7 := by
  have h := C4_newborn_batch_cap 5 2 [3, 4] (by decide)
  exact ⟨h.1, by rw [h.2.1]; rfl⟩

/-- Helper: sum of `n` copies of `q`, each bumped by 1 on the first `m`. -/
theorem sum_range_map_add_ite (q m : ℕ) :
    ∀ n : ℕ, (((List.range n).map (fun i => q + if i < m then 1 else 0)).sum)
      = n * q + min m n := by
  intro n
  induction n with
  | zero => simp
  | succ k ih =>
      rw [List.range_succ, List.map_append, List.sum_append]
      simp only [List.map_cons, List.map_nil, List.sum_cons, List.sum_nil]
      rw [ih, Nat.succ_mul]
      by_cases hk : k < m
      · rw [if_pos hk]
        omega
      · rw [if_neg hk]
        omega

/-- Helper: the `np.array_split` part sizes sum to the full length. -/
theorem sum_splitSizes (P n : ℕ) (hn : 0 < n) : (splitSizes P n).sum = P := by
  unfold splitSizes
  rw [sum_range_map_add_ite]
  have h1 : P % n < n := Nat.mod_lt P hn
  have h2 : n * (P / n) + P % n = P := Nat.div_add_mod P n
  omega

/-- Helper: concatenating the chunks recovers a prefix of the source list. -/
theorem splitBySizes_flatten : ∀ (ss l : List ℕ),
    (splitBySizes ss l).flatten = List.take ss.sum l := by
  intro ss
  induction ss with
  | nil => intro l; simp [splitBySizes]
  | cons s t ih =>
      intro l
      simp only [splitBySizes, List.flatten_cons, List.sum_cons]
      rw [ih, List.take_add]

/-- Helper: when the sizes fit in the list, each chunk has its stated size. -/
theorem splitBySizes_lengths : ∀ (ss l : List ℕ), ss.sum ≤ l.length →
    (splitBySizes ss l).map List.length = ss := by
  intro ss
  induction ss with
  | nil => intro l _; rfl
  | cons s t ih =>
      intro l h
      rw [List.sum_cons] at h
      simp only [splitBySizes, List.map_cons]
      rw [List.length_take, ih (List.drop s l) (by rw [List.length_drop]; omega)]
      congr 1
      omega

/-- Helper: counting non-empty chunks is counting nonzero chunk lengths. -/
theorem filter_ne_nil_length : ∀ (parts : List (List ℕ)),
    ((parts.filter (fun p => !decide (p = []))).length)
      = (((parts.map List.length).filter (fun s => !decide (s = 0))).length) := by
  intro parts
  induction parts with
  | nil => rfl
  | cons p t ih =>
      simp only [List.filter_cons, List.map_cons]
      by_cases hp : p = []
      · subst hp
        simpa using ih
      · have hlen : p.length ≠ 0 := by
          simpa [List.length_eq_zero] using hp
        simp [hp, hlen, ih]

/-- Helper: arithmetic facts about the clamped part count for P ≥ 1. -/
theorem numParts_spec (P : ℕ) (hP : 0 < P) :
    0 < numParts P ∧ numParts P ≤ P ∧ numParts P = clampPens P := by
  have hd : P / 12 ≤ P := Nat.div_le_self P 12
  unfold numParts clampPens
  split_ifs <;> omega

/-- Helper: every `np.array_split` part is non-empty when `n ≤ P`. -/
theorem splitSizes_pos (P n : ℕ) (hn : 0 < n) (hP : n ≤ P) :
    ∀ s ∈ splitSizes P n, s ≠ 0 := by
  intro s hs
  unfold splitSizes at hs
  obtain ⟨i, hi, rfl⟩ := List.mem_map.mp hs
  have h1 : 1 ≤ P / n := (Nat.one_le_div_iff hn).mpr hP
  by_cases hi2 : i < P % n
  · rw [if_pos hi2]
    omega
  · rw [if_neg hi2]
    omega

/-- Helper: the transfer loop leaves every pen below the first target pen
untouched. -/
theorem assignPensFrom_lt : ∀ (parts : List (List ℕ)) (h : ℕ → List ℕ) (i0 j : ℕ),
    j < i0 + 4 → assignPensFrom h i0 parts j = h j := by
  intro parts
  induction parts with
  | nil => intro h i0 j _; rfl
  | cons pen rest ih =>
      intro h i0 j hj
      simp only [assignPensFrom]
      rw [ih _ (i0 + 1) j (by omega)]
      rw [Function.update_apply, if_neg (by omega)]

/-- Helper: the transfer loop appends the `k`-th part onto pen `i0 + k + 4`. -/
theorem assignPensFrom_get : ∀ (parts : List (List ℕ)) (h : ℕ → List ℕ) (i0 k : ℕ),
    k < parts.length →
    assignPensFrom h i0 parts (i0 + k + 4) = h (i0 + k + 4) ++ parts.getD k [] := by
  intro parts
  induction parts with
  | nil => intro h i0 k hk; simp at hk
  | cons pen rest ih =>
      intro h i0 k hk
      cases k with
      | zero =>
          rw [show i0 + 0 + 4 = i0 + 4 from by omega]
          simp only [assignPensFrom]
          rw [assignPensFrom_lt rest _ (i0 + 1) (i0 + 4) (by omega)]
          rw [Function.update_apply, if_pos rfl]
          rfl
      | succ m =>
          simp only [assignPensFrom]
          rw [show i0 + (m + 1) + 4 = (i0 + 1) + m + 4 from by omega]
          rw [ih _ (i0 + 1) m (by simpa using hk)]
          rw [Function.update_apply, if_neg (by omega)]
          rfl

/-- C6 counterexample: for the empty grower pool (size 0) the code builds one
single empty part, so zero pens receive a non-empty part, while the claimed
count `clamp(floor(0/12), 1, 12)` is 1. -/
theorem C6_empty_pool_counterexample :
    ((array_split ([] : List ℕ) (numParts 0)).filter (fun p => !decide (p = []))).length
      ≠ clampPens 0 := by
  decide

/-- C6 amended: for every non-empty grower pool the number of pens receiving
a non-empty part equals `clamp(floor(P/12), 1, 12)`, the concatenation of the
parts is exactly the pool (no individual duplicated or dropped by the split),
and part `k` is appended onto pen `k + 4` in pool order; for the empty pool
the split is a single empty part and no pen receives anything. -/
theorem C6_redistribution_amended (l : List ℕ) (hl : l ≠ []) :
    ((array_split l (numParts l.length)).filter (fun p => !decide (p = []))).length
        = clampPens l.length ∧
    (array_split l (numParts l.length)).flatten = l ∧
    (∀ (pens0 : ℕ → List ℕ) (k : ℕ), k < (array_split l (numParts l.length)).length →
      assignPensFrom pens0 0 (array_split l (numParts l.length)) (k + 4)
        = pens0 (k + 4) ++ (array_split l (numParts l.length)).getD k []) := by
  have hP : 0 < l.length := List.length_pos.mpr hl
  obtain ⟨hn0, hnP, hnc⟩ := numParts_spec l.length hP
  have hsum : (splitSizes l.length (numParts l.length)).sum = l.length :=
    sum_splitSizes _ _ hn0
  refine ⟨?_, ?_, ?_⟩
  · rw [filter_ne_nil_length]
    unfold array_split
    rw [splitBySizes_lengths _ _ (le_of_eq hsum)]
    have hall := splitSizes_pos l.length (numParts l.length) hn0 hnP
    rw [List.filter_eq_self.mpr (fun s hs => by simpa using hall s hs)]
    unfold splitSizes
    rw [List.length_map, List.length_range]
    exact hnc
  · unfold array_split
    rw [splitBySizes_flatten, hsum, List.take_length]
  · intro pens0 k hk
    have hres := assignPensFrom_get (array_split l (numParts l.length)) pens0 0 k hk
    rw [show (0 : ℕ) + k + 4 = k + 4 from by omega] at hres
    exact hres

/-- Witness for the amended C6 on the pool `[1, 2, 3]`. -/
theorem C6_redistribution_amended_witness :
    (array_split [1, 2, 3] (numParts (List.length [1, 2, 3]))).flatten = [1, 2, 3] :=
  (C6_redistribution_amended [1, 2, 3] (by decide)).2.1

/-- Helper: folding `addMove` over rows appends, to any key's current list,
exactly the (dest, dur) images of the retained rows of that key, in row
order. -/
theorem restructure_moves_go (origin stepDur st : ℤ) (src : ℕ) :
    ∀ (rows : List MoveRow) (m : Moves),
      List.foldl (addMove origin stepDur) m rows st src
        = m st src
          ++ (rows.filter (keepRow origin stepDur st src)).map (fun r => (r.dest, r.dur)) := by
  intro rows
  induction rows with
  | nil => intro m; simp
  | cons r t ih =>
      intro m
      rw [List.foldl_cons, ih (addMove origin stepDur m r), List.filter_cons]
      by_cases h1 : r.date < origin
      · have hk : keepRow origin stepDur st src r = false := by
          simp [keepRow, not_le.mpr h1]
        have ha : addMove origin stepDur m r = m := by
          unfold addMove
          rw [if_pos h1]
        rw [hk, ha]
        simp
      · by_cases h2 : st = (r.date - origin).fdiv stepDur ∧ src = r.source
        · have hk : keepRow origin stepDur st src r = true := by
            simp [keepRow, not_lt.mp h1, h2.1, h2.2]
          have ha : addMove origin stepDur m r st src = m st src ++ [(r.dest, r.dur)] := by
            unfold addMove
            rw [if_neg h1]
            exact if_pos h2
          rw [hk, ha]
          simp
        · have hk : keepRow origin stepDur st src r = false := by
            unfold keepRow
            rcases not_and_or.mp h2 with h | h
            · simp [h]
            · simp [h]
          have ha : addMove origin stepDur m r st src = m st src := by
            unfold addMove
            rw [if_neg h1]
            exact if_neg h2
          rw [hk, ha]
          simp

/-- C7: for every key (step, source) the built schedule holds exactly the
(dest, dur) entries of the rows retained for that key — rows dated at or after
the origin whose floor-division step index `(date - origin) // step_duration`
is the key's step and whose source matches — in input-file order and without
deduplication; consequently rows dated strictly before the origin never
contribute, so dropping them beforehand does not change the schedule. -/
theorem C7_schedule_characterization (origin stepDur st : ℤ) (src : ℕ)
    (rows : List MoveRow) :
    restructure_moves origin stepDur rows st src
        = (rows.filter (keepRow origin stepDur st src)).map (fun r => (r.dest, r.dur)) ∧
    restructure_moves origin stepDur
        (rows.filter (fun r => decide (origin ≤ r.date))) st src
      = restructure_moves origin stepDur rows st src := by
  constructor
  · have h := restructure_moves_go origin stepDur st src rows (fun _ _ => [])
    unfold restructure_moves
    rw [h]
    rfl
  · unfold restructure_moves
    rw [restructure_moves_go origin stepDur st src rows (fun _ _ => []),
      restructure_moves_go origin stepDur st src
        (rows.filter (fun r => decide (origin ≤ r.date))) (fun _ _ => [])]
    rw [List.filter_filter]
    have hfil : (rows.filter
          (fun a => keepRow origin stepDur st src a && decide (origin ≤ a.date)))
        = rows.filter (keepRow origin stepDur st src) := by
      apply List.filter_congr
      intro r _
      cases hle : decide (origin ≤ r.date)
      · simp [keepRow, hle]
      · simp [hle]
    rw [hfil]

/-- C8: when every biosecurity-success draw `P2` equals 1 (and the final
uniform draws are nonnegative, as draws of `np.random.random()` are), the
contact risk `P1 * (1 - P2)` is exactly 0, the infection branch is never
taken, and `external_pathway` leaves every individual's disease state
unchanged, whatever the encounter/transmission/prevalence draws. -/
theorem C8_perfect_biosec_no_infection (infectedState : Health)
    (pigs : List (Health × ExtDraw))
    (h : ∀ pd ∈ pigs, pd.2.P2 = 1 ∧ 0 ≤ pd.2.u) :
    externalPathway infectedState pigs = pigs.map Prod.fst := by
  unfold externalPathway
  apply List.map_congr_left
  intro pd hpd
  obtain ⟨h2, hu⟩ := h pd hpd
  unfold externalPathwayPig R_contact
  rw [h2, sub_self, mul_zero]
  rw [if_neg (by rintro ⟨_, hlt⟩; exact absurd hlt (not_lt.mpr hu))]

/-- Witness for C8: two individuals (one susceptible, one infectious) with
perfect-biosecurity draws keep their states. -/
theorem C8_perfect_biosec_no_infection_witness :
    externalPathway Health.E [(Health.S, dC8), (Health.I, dC8)]
      = [Health.S, Health.I] := by
  rw [C8_perfect_biosec_no_infection Health.E [(Health.S, dC8), (Health.I, dC8)]
    (by intro pd hpd; fin_cases hpd <;> exact ⟨rfl, by norm_num [dC8]⟩)]
  rfl

/-- C9: the preprocessor setup fails — with a `SemanticException`-style
configuration error, raised by `init_preprocessor` before any schedule is
built — exactly when the input-files configuration is absent or lacks the
`trade_file` key. -/
theorem C9_missing_trade_file_iff (input_files : Option (List String))
    (origin stepDur : ℤ) (rows : List MoveRow) :
    exceptHasError (setupPreprocessor input_files origin stepDur rows) = true
      ↔ (input_files = none ∨ "trade_file" ∉ input_files.getD []) := by
  unfold setupPreprocessor init_preprocessor
  by_cases h : input_files = none ∨ "trade_file" ∉ input_files.getD []
  · rw [if_pos h]
    exact ⟨fun _ => h, fun _ => rfl⟩
  · rw [if_neg h]
    exact ⟨fun hfalse => absurd hfalse Bool.false_ne_true, fun hc => absurd hc h⟩

/-- C10: after `sample_I_from_fatteners` the counter `nb_of_sampled_I_Jf`
equals the number of fattening pens in `[4, 15]` with at least one infectious
animal, independently of the counter's value before the call, and therefore
lies between 0 and 12. -/
theorem C10_sampled_infectious_pens (st : PopState) (prev prev' : ℕ) :
    sample_I_counter st prev
        = ((Finset.Icc 4 15).filter (fun i => 0 < st.totalI i)).card ∧
    sample_I_counter st prev = sample_I_counter st prev' ∧
    sample_I_counter st prev ≤ 12 := by
  have hval : (Finset.Icc (4:ℕ) 15).val = ↑(List.range' 4 12) := by
    rw [Nat.Icc_eq_range']
  have hcard : ((Finset.Icc (4:ℕ) 15).filter (fun i => 0 < st.totalI i)).card
      = ((List.range' 4 12).filter (fun i => decide (0 < st.totalI i))).length := by
    rw [show ((Finset.Icc (4:ℕ) 15).filter (fun i => 0 < st.totalI i)).card
        = Multiset.card
            (Multiset.filter (fun i => 0 < st.totalI i) (Finset.Icc (4:ℕ) 15).val)
      from rfl]
    rw [hval, Multiset.filter_coe, Multiset.coe_card]
  have hlist : ((List.range' 4 12).filter (fun i => decide (0 < st.totalI i))).length
      = ((List.range 12).filter (fun i => decide (0 < st.totalI (i + 4)))).length := by
    rw [List.range'_eq_map_range, List.filter_map, List.length_map]
    apply congrArg List.length
    apply List.filter_congr
    intro a _
    simp [Function.comp, Nat.add_comm]
  refine ⟨?_, rfl, ?_⟩
  · unfold sample_I_counter
    rw [hcard, hlist, Nat.zero_add]
  · unfold sample_I_counter
    rw [Nat.zero_add]
    calc ((List.range 12).filter (fun i => decide (0 < st.totalI (i + 4)))).length
        ≤ (List.range 12).length := List.length_filter_le _ _
      _ = 12 := by rw [List.length_range]

end SwineModel
